import Mathlib

/-!
Verification of the okchain dex/token keeper ledger subsystem.

Shallow embedding of:
  * `x/dex/keeper/keeper.go`  — token-pair registry, deposit-withdrawal queue;
  * `x/token` keeper (source file `part_000`) — per-address coin lock ledger.

Modelling conventions:
  * Addresses (`sdk.AccAddress`) are `Nat`.
  * `sdk.Dec` amounts are exact scaled integers, modelled as `Int`
    (Dec addition/subtraction on equal denoms is plain integer arithmetic).
  * `time.Time` is `Nat` (nanoseconds); the withdraw time index stores
    `(completionTime, owner)` entries, and the store range scan up to `endTime`
    is inclusive of `endTime` (the Go iterator ends at
    `PrefixEndBytes(GetWithdrawTimeKey(endTime))`, which covers every key whose
    time component equals `endTime`).
  * The ordered KV store is modelled by association lists with
    overwrite-on-set; iteration order is irrelevant to the properties proved
    here (only membership in range scans is used).
  * The dex keeper's block-scoped cache is write-through in every operation
    modelled here (`SaveTokenPair`/`UpdateTokenPair` write store and cache with
    the same record, `GetTokenPair` returns the common record), so store and
    cache are collapsed into the single `pairs` field.
  * Failure is modelled by returning the state threaded up to the point of the
    early `return err`, paired with `some` error; so "state unchanged on
    failure" is a genuine property of the code's check-before-mutate ordering.
-/

namespace OKChain

/-- One `sdk.DecCoin`: a denomination and an exact decimal amount (scaled to an
integer). -/
structure Coin where
  denom : String
  amount : Int
deriving DecidableEq, Repr

/-- `removeZeroDecCoins`: drop coins with zero amount. -/
def removeZero (cs : List Coin) : List Coin :=
  cs.filter (fun c => c.amount ≠ 0)

/-- `DecCoins.negative()`: negate every amount. -/
def negCoins (cs : List Coin) : List Coin :=
  cs.map (fun c => ⟨c.denom, -c.amount⟩)

/-- `DecCoins.safeAdd`: merge two denom-sorted coin lists, summing equal
denoms and dropping zero amounts (cosmos-sdk `safeAdd`). -/
def safeAdd : List Coin → List Coin → List Coin
  | [], ys => removeZero ys
  | x :: xs, [] => removeZero (x :: xs)
  | x :: xs, y :: ys =>
    if x.denom.data < y.denom.data then
      if x.amount = 0 then safeAdd xs (y :: ys) else x :: safeAdd xs (y :: ys)
    else if y.denom.data < x.denom.data then
      if y.amount = 0 then safeAdd (x :: xs) ys else y :: safeAdd (x :: xs) ys
    else
      if x.amount + y.amount = 0 then safeAdd xs ys
      else ⟨x.denom, x.amount + y.amount⟩ :: safeAdd xs ys
termination_by xs ys => xs.length + ys.length

/-- `DecCoins.SafeSub`: `safeAdd` with the negation of the subtrahend, plus the
`IsAnyNegative` flag. -/
def safeSub (xs ys : List Coin) : List Coin × Bool :=
  let d := safeAdd xs (negCoins ys)
  (d, d.any (fun c => decide (c.amount < 0)))

/-- `DecCoins.IsZero`: every amount is zero (an empty list is zero). -/
def coinsIsZero (cs : List Coin) : Bool :=
  cs.all (fun c => c.amount = 0)

/-- Lexicographic byte-wise string order (Go `<` on strings compares UTF-8
bytes; on the ASCII keys and denoms used here that is the lexicographic order
on the character sequences). -/
def strLE (a b : String) : Prop := a.data ≤ b.data

instance : DecidableRel strLE := fun a b =>
  inferInstanceAs (Decidable (a.data ≤ b.data))

/-- Ordering used by `sort.Sort` on `DecCoins` (`Less` compares denoms). -/
def coinLE (a b : Coin) : Prop := strLE a.denom b.denom

instance : DecidableRel coinLE := fun a b =>
  inferInstanceAs (Decidable (a.denom.data ≤ b.denom.data))

instance : IsTotal Coin coinLE := ⟨fun a b => le_total a.denom.data b.denom.data⟩

instance : IsTrans Coin coinLE := ⟨fun _ _ _ h1 h2 => le_trans h1 h2⟩

/-- `sort.Sort(newCoins)` with `Less` comparing denoms, modelled as insertion
sort (the stored lists have pairwise-distinct denoms, for which every
comparison sort agrees). -/
def sortCoins (cs : List Coin) : List Coin :=
  List.insertionSort coinLE cs

/-- Per-address balances of the external bank/supply keeper. -/
def Bank := List (Nat × List Coin)

/-- Balance lookup; an absent address holds no coins. -/
def bankGet (b : Bank) (addr : Nat) : List Coin :=
  match b.find? (fun e => e.1 = addr) with
  | some e => e.2
  | none => []

/-- Overwrite an address's balance. -/
def bankSet (b : Bank) (addr : Nat) (cs : List Coin) : Bank :=
  (addr, cs) :: b.filter (fun e => e.1 ≠ addr)

/-- Credit coins to an address's balance. -/
def bankAdd (b : Bank) (addr : Nat) (cs : List Coin) : Bank :=
  bankSet b addr (safeAdd (bankGet b addr) cs)

/-- `SupplyKeeper.SendCoinsFromModuleToAccount` (external collaborator): moves
coins from module custody to an account, failing (`none`) if custody would go
negative. -/
def sendToAccount (module : List Coin) (b : Bank) (addr : Nat) (cs : List Coin) :
    Option (List Coin × Bank) :=
  let (m, neg) := safeSub module cs
  if neg then none else some (m, bankAdd b addr cs)

/-- `SupplyKeeper.SendCoinsFromAccountToModule` (external collaborator): moves
coins from an account to module custody, failing if the account would go
negative. -/
def sendFromAccount (module : List Coin) (b : Bank) (addr : Nat) (cs : List Coin) :
    Option (List Coin × Bank) :=
  let (a, neg) := safeSub (bankGet b addr) cs
  if neg then none else some (safeAdd module cs, bankSet b addr a)

/-- Error taxonomy of the spec, mapped onto the sdk errors the code returns
(`NotFound` ↦ `ErrInvalidAddress` in `CompleteWithdraw`, `Overdraft` ↦ the two
`fmt.Errorf` branches of `updateLockCoins`, `NotOwner` ↦
`ErrInvalidAddress`/`ErrUnauthorized`, etc.). -/
inductive Err where
  | UnknownProduct
  | NotOwner
  | WrongDenom
  | InsufficientFunds
  | Overdraft
  | NotFound
  | Internal
deriving DecidableEq, Repr

/-! ## Token keeper: the coin lock ledger (source file `part_000`) -/

/-- `types.LockCoinsTypeQuantity` (constant of `x/token/types`, outside the
given sources; only its equality with the argument matters). -/
def LockCoinsTypeQuantity : Int := 1

/-- State touched by the lock-ledger operations: the `lockStoreKey` store
(per-address locked coin lists), module custody, and external account
balances. -/
structure TokenState where
  locks : List (Nat × List Coin)
  moduleCoins : List Coin
  accounts : Bank

/-- Read of `store.Get(types.GetLockAddress(addr))`: `none` when no record. -/
def lockGet (l : List (Nat × List Coin)) (addr : Nat) : Option (List Coin) :=
  (l.find? (fun e => e.1 = addr)).map (fun e => e.2)

/-- `store.Set` on the lock store (overwrite). -/
def lockSet (l : List (Nat × List Coin)) (addr : Nat) (cs : List Coin) :
    List (Nat × List Coin) :=
  (addr, cs) :: l.filter (fun e => e.1 ≠ addr)

/-- `store.Delete` on the lock store. -/
def lockDel (l : List (Nat × List Coin)) (addr : Nat) : List (Nat × List Coin) :=
  l.filter (fun e => e.1 ≠ addr)

/-- `Keeper.updateLockCoins` (`part_000:190-224`): read the stored locked
coins; on `isAdd` merge the new coins in, otherwise `SafeSub` them out, failing
if there is no record or any amount would go negative; sort; store the result,
deleting the record when it became empty.  Errors are returned with the state
as it stands at the `return` — nothing has been written on the error paths. -/
def updateLockCoins (s : TokenState) (addr : Nat) (coins : List Coin)
    (isAdd : Bool) : TokenState × Option Err :=
  match lockGet s.locks addr, isAdd with
  | none, true =>
    let newCoins := sortCoins coins
    if newCoins.length > 0 then (⟨lockSet s.locks addr newCoins, s.moduleCoins, s.accounts⟩, none)
    else (⟨lockDel s.locks addr, s.moduleCoins, s.accounts⟩, none)
  | some oldCoins, true =>
    let newCoins := sortCoins (safeAdd oldCoins coins)
    if newCoins.length > 0 then (⟨lockSet s.locks addr newCoins, s.moduleCoins, s.accounts⟩, none)
    else (⟨lockDel s.locks addr, s.moduleCoins, s.accounts⟩, none)
  | none, false => (s, some .Overdraft)
  | some oldCoins, false =>
    let (sub, isNegative) := safeSub oldCoins coins
    if isNegative then (s, some .Overdraft)
    else
      let newCoins := sortCoins sub
      if newCoins.length > 0 then (⟨lockSet s.locks addr newCoins, s.moduleCoins, s.accounts⟩, none)
      else (⟨lockDel s.locks addr, s.moduleCoins, s.accounts⟩, none)

/-- `Keeper.LockCoins` (`part_000:177-187`): transfer the coins from the
account to module custody; on success and quantity tracking, add them to the
locked set. -/
def LockCoins (s : TokenState) (addr : Nat) (coins : List Coin)
    (lockCoinsType : Int) : TokenState × Option Err :=
  match sendFromAccount s.moduleCoins s.accounts addr coins with
  | none => (s, some .InsufficientFunds)
  | some (m, b) =>
    let s1 : TokenState := ⟨s.locks, m, b⟩
    if lockCoinsType = LockCoinsTypeQuantity then updateLockCoins s1 addr coins true
    else (s1, none)

/-- `Keeper.UnlockCoins` (`part_000:227-243`): with quantity tracking first
subtract from the locked set (failing with no side effect on overdraft), then
transfer the coins from custody back to the account. -/
def UnlockCoins (s : TokenState) (addr : Nat) (coins : List Coin)
    (lockCoinsType : Int) : TokenState × Option Err :=
  let step :=
    if lockCoinsType = LockCoinsTypeQuantity then updateLockCoins s addr coins false
    else (s, none)
  match step with
  | (s1, some e) => (s1, some e)
  | (s1, none) =>
    match sendToAccount s1.moduleCoins s1.accounts addr coins with
    | none => (s1, some .InsufficientFunds)
    | some (m, b) => (⟨s1.locks, m, b⟩, none)

/-- `Keeper.GetLockCoins` (`part_000:246-254`): empty when no record. -/
def GetLockCoins (s : TokenState) (addr : Nat) : List Coin :=
  match lockGet s.locks addr with
  | none => []
  | some cs => cs

/-- `Keeper.BalanceAccount` (`part_000:276-292`), the order-settlement
primitive: debit `outputCoins` from the locked set (skipped when zero), abort
on debit failure, then credit `inputCoins` from custody to the account
(skipped when zero). -/
def BalanceAccount (s : TokenState) (addr : Nat) (outputCoins inputCoins : List Coin) :
    TokenState × Option Err :=
  let step :=
    if coinsIsZero outputCoins then (s, none)
    else updateLockCoins s addr outputCoins false
  match step with
  | (s1, some e) => (s1, some e)
  | (s1, none) =>
    if coinsIsZero inputCoins then (s1, none)
    else
      match sendToAccount s1.moduleCoins s1.accounts addr inputCoins with
      | none => (s1, some .InsufficientFunds)
      | some (m, b) => (⟨s1.locks, m, b⟩, none)

/-! ## Dex keeper: token-pair registry and withdrawal queue
    (`x/dex/keeper/keeper.go`) -/

/-- `sdk.DefaultBondDenom` (external sdk constant; operations only compare
denoms against it, so its concrete spelling is immaterial). -/
def DefaultBondDenom : String := "okt"

/-- Modelled from the spec: `types.DefaultTokenPairDeposit` (a constant of
`x/dex/types`, not among the given sources) — the configured, non-zero default
deposit a pair is reset to on ownership transfer. -/
def DefaultTokenPairDeposit : Coin := ⟨DefaultBondDenom, 100⟩

/-- `types.TokenPair`: ID, base/quote symbols, owner, deposit (one `DecCoin`),
delisting flag. -/
structure TokenPair where
  id : Nat
  base : String
  quote : String
  owner : Nat
  deposits : Coin
  delisting : Bool
deriving DecidableEq, Repr

/-- `types.WithdrawInfo`: owner, pending deposit, completion time. -/
structure WithdrawInfo where
  owner : Nat
  deposits : Coin
  completeTime : Nat
deriving DecidableEq, Repr

/-- Dex keeper state: primary pair records keyed by `"base_quote"` (store and
write-through cache collapsed, see the header), the persisted pair counter,
the owner index sentinels, the withdraw records keyed by owner, the withdraw
time index `(completionTime, owner)`, module custody and account balances, and
the `WithdrawPeriod` parameter (external param store, constant within a
scenario). -/
structure DexState where
  pairs : List (String × TokenPair)
  counter : Nat
  ownerIdx : List (Nat × String)
  withdraws : List (Nat × WithdrawInfo)
  timeIdx : List (Nat × Nat)
  moduleCoins : List Coin
  accounts : Bank
  withdrawPeriod : Nat

/-- The `"base_quote"` product key of a pair. -/
def pairKey (tp : TokenPair) : String :=
  tp.base ++ "_" ++ tp.quote

/-- Pair-record lookup (`GetTokenPair`, cache and store agreeing). -/
def getPair (ps : List (String × TokenPair)) (product : String) : Option TokenPair :=
  (ps.find? (fun e => e.1 = product)).map (fun e => e.2)

/-- Pair-record overwrite (`store.Set(GetTokenPairAddress(key), ...)`). -/
def setPair (ps : List (String × TokenPair)) (product : String) (tp : TokenPair) :
    List (String × TokenPair) :=
  (product, tp) :: ps.filter (fun e => e.1 ≠ product)

/-- Owner-index sentinel insert (`store.Set(GetUserTokenPairAddress(owner, key), {})`,
the value is empty so set is ensure-present). -/
def idxSet (idx : List (Nat × String)) (e : Nat × String) : List (Nat × String) :=
  if e ∈ idx then idx else e :: idx

/-- Owner-index sentinel delete. -/
def idxDel (idx : List (Nat × String)) (e : Nat × String) : List (Nat × String) :=
  idx.filter (fun x => x ≠ e)

/-- `GetWithdrawInfo`: withdraw-record lookup by owner address. -/
def wGet (ws : List (Nat × WithdrawInfo)) (addr : Nat) : Option WithdrawInfo :=
  (ws.find? (fun e => e.1 = addr)).map (fun e => e.2)

/-- `SetWithdrawInfo` (overwrite at the owner's key). -/
def wSet (ws : List (Nat × WithdrawInfo)) (wi : WithdrawInfo) :
    List (Nat × WithdrawInfo) :=
  (wi.owner, wi) :: ws.filter (fun e => e.1 ≠ wi.owner)

/-- `deleteWithdrawInfo`. -/
def wDel (ws : List (Nat × WithdrawInfo)) (addr : Nat) : List (Nat × WithdrawInfo) :=
  ws.filter (fun e => e.1 ≠ addr)

/-- `SetWithdrawCompleteTimeAddress`: time-index sentinel at
`(completeTime, addr)`. -/
def tiSet (ti : List (Nat × Nat)) (t addr : Nat) : List (Nat × Nat) :=
  if (t, addr) ∈ ti then ti else (t, addr) :: ti

/-- `DeleteWithdrawCompleteTimeAddress`. -/
def tiDel (ti : List (Nat × Nat)) (t addr : Nat) : List (Nat × Nat) :=
  ti.filter (fun e => e ≠ (t, addr))

/-- The addresses yielded by `IterateWithdrawAddress(currentTime)`: the store
range scan covers exactly the entries with completion time `≤ currentTime`
(inclusive upper end, see the header). -/
def maturedAddrs (s : DexState) (currentTime : Nat) : List Nat :=
  (s.timeIdx.filter (fun e => e.1 ≤ currentTime)).map (fun e => e.2)

/-- `DecCoin.ToCoins`: the one-coin list. -/
def toCoins (c : Coin) : List Coin := [c]

/-- `Keeper.GetTokenPairNum` (`keeper.go:475-482`): the persisted counter,
zero when never written. -/
def GetTokenPairNum (s : DexState) : Nat := s.counter

/-- `Keeper.SaveTokenPair` (`keeper.go:74-95`): assign `counter+1` (uint64
arithmetic) as the ID when the pair arrives with ID 0; unconditionally persist
the pair's ID as the new counter; write the primary record under
`base_quote` and the owner-index sentinel.  Go mutates the pair through the
pointer, so the (possibly ID-assigned) pair is returned alongside the state. -/
def SaveTokenPair (s : DexState) (tp : TokenPair) : DexState × TokenPair :=
  let tp1 := if tp.id = 0 then { tp with id := (s.counter + 1) % 2 ^ 64 } else tp
  let key := pairKey tp1
  (⟨setPair s.pairs key tp1, tp1.id, idxSet s.ownerIdx (tp1.owner, key),
    s.withdraws, s.timeIdx, s.moduleCoins, s.accounts, s.withdrawPeriod⟩, tp1)

/-- `Keeper.GetTokenPair` (`keeper.go:98-118`): lookup by product key
(`none` for absent, matching the nil return). -/
def GetTokenPair (s : DexState) (product : String) : Option TokenPair :=
  getPair s.pairs product

/-- `Keeper.UpdateTokenPair` (`keeper.go:202-206`): overwrite the primary
record only (the owner index is untouched). -/
def UpdateTokenPair (s : DexState) (product : String) (tp : TokenPair) : DexState :=
  ⟨setPair s.pairs product tp, s.counter, s.ownerIdx, s.withdraws, s.timeIdx,
    s.moduleCoins, s.accounts, s.withdrawPeriod⟩

/-- `Keeper.Withdraw` (`keeper.go:268-307`): ownership/denom/sufficiency
checks; compute `completeTime = now + withdrawPeriod`; create the withdraw
record, or merge into the existing one after removing its old time-index
entry (amount summed, timer reset); insert the time-index entry at the new
completion time; decrement the pair's deposit.  `DecCoin` `Add`/`Sub`/`IsLT`
act on the amounts (the sdk requires matching denoms there). -/
def Withdraw (s : DexState) (product : String) (toAddr : Nat) (amount : Coin)
    (now : Nat) : DexState × Option Err :=
  match getPair s.pairs product with
  | none => (s, some .UnknownProduct)
  | some tokenPair =>
    if tokenPair.owner ≠ toAddr then (s, some .NotOwner)
    else if amount.denom ≠ DefaultBondDenom then (s, some .WrongDenom)
    else if tokenPair.deposits.amount < amount.amount then (s, some .InsufficientFunds)
    else
      let completeTime := now + s.withdrawPeriod
      let (withdrawInfo, ti1) :=
        match wGet s.withdraws toAddr with
        | none => ((⟨toAddr, amount, completeTime⟩ : WithdrawInfo), s.timeIdx)
        | some old =>
          (⟨old.owner, ⟨old.deposits.denom, old.deposits.amount + amount.amount⟩,
             completeTime⟩,
           tiDel s.timeIdx old.completeTime toAddr)
      let ws1 := wSet s.withdraws withdrawInfo
      let ti2 := tiSet ti1 completeTime toAddr
      let tp1 := { tokenPair with
        deposits := ⟨tokenPair.deposits.denom, tokenPair.deposits.amount - amount.amount⟩ }
      (⟨setPair s.pairs product tp1, s.counter, s.ownerIdx, ws1, ti2,
         s.moduleCoins, s.accounts, s.withdrawPeriod⟩, none)

/-- `Keeper.CompleteWithdraw` (`keeper.go:450-463`): fail when there is no
withdraw record; transfer the full pending amount from custody to the record's
owner (failure there returns before any deletion); delete the primary
withdraw record.  The time-index entry is not touched. -/
def CompleteWithdraw (s : DexState) (addr : Nat) : DexState × Option Err :=
  match wGet s.withdraws addr with
  | none => (s, some .NotFound)
  | some withdrawInfo =>
    match sendToAccount s.moduleCoins s.accounts withdrawInfo.owner
        (toCoins withdrawInfo.deposits) with
    | none => (s, some .InsufficientFunds)
    | some (m, b) =>
      (⟨s.pairs, s.counter, s.ownerIdx, wDel s.withdraws addr, s.timeIdx,
         m, b, s.withdrawPeriod⟩, none)

/-- `Keeper.TransferOwnership` (`keeper.go:353-377`): existence and ownership
checks; when the deposit is positive, a full `Withdraw` of it under `from`
(whose error is wrapped as `ErrInternal`); then overwrite the record with
owner `to` and the default deposit, and swap the owner-index sentinel
(`UpdateUserTokenPair`, `keeper.go:195-199`: delete the old, set the new). -/
def TransferOwnership (s : DexState) (product : String) (from_ toAddr : Nat)
    (now : Nat) : DexState × Option Err :=
  match getPair s.pairs product with
  | none => (s, some .UnknownProduct)
  | some tokenPair =>
    if tokenPair.owner ≠ from_ then (s, some .NotOwner)
    else
      let step :=
        if 0 < tokenPair.deposits.amount then Withdraw s product from_ tokenPair.deposits now
        else (s, none)
      match step with
      | (s1, some _) => (s1, some .Internal)
      | (s1, none) =>
        let tp1 := { tokenPair with owner := toAddr, deposits := DefaultTokenPairDeposit }
        let s2 := UpdateTokenPair s1 product tp1
        (⟨s2.pairs, s2.counter, idxSet (idxDel s2.ownerIdx (from_, product)) (toAddr, product),
           s2.withdraws, s2.timeIdx, s2.moduleCoins, s2.accounts, s2.withdrawPeriod⟩, none)

/-- Ordering of `types.TokenPairs` used by `sort.Sort` in
`GetTokenPairsOrdered` and `SortProducts`.  Modelled from the spec: the
comparator (`types.TokenPairs.Less`, in `x/dex/types`, not among the given
sources) orders by byte-wise ascending comparison of the concatenated
`"base_quote"` key. -/
def pairLE (a b : TokenPair) : Prop := strLE (pairKey a) (pairKey b)

instance : DecidableRel pairLE := fun a b =>
  inferInstanceAs (Decidable ((pairKey a).data ≤ (pairKey b).data))

instance : IsTotal TokenPair pairLE := ⟨fun a b => le_total (pairKey a).data (pairKey b).data⟩

instance : IsTrans TokenPair pairLE := ⟨fun _ _ _ h1 h2 => le_trans h1 h2⟩

/-- `sort.Sort(types.TokenPairs)`, modelled as insertion sort under
`pairLE` (registered pairs have pairwise-distinct keys, for which every
comparison sort agrees). -/
def sortTokenPairs (l : List TokenPair) : List TokenPair :=
  List.insertionSort pairLE l

/-- `Keeper.GetTokenPairsOrdered` (`keeper.go:310-318`): all registered pairs,
sorted. -/
def GetTokenPairsOrdered (s : DexState) : List TokenPair :=
  sortTokenPairs (s.pairs.map (fun e => e.2))

/-- `Keeper.SortProducts` (`keeper.go:321-334`): look up each product
(dropping unregistered ones), sort the pairs, and write the sorted keys back
over the first positions of the list — positions beyond the number of
registered pairs keep their old entries. -/
def SortProducts (s : DexState) (products : List String) : List String :=
  let tokenPairs := sortTokenPairs (products.filterMap (fun p => getPair s.pairs p))
  tokenPairs.map pairKey ++ products.drop tokenPairs.length

/-- A sequence of `SaveTokenPair` calls; returns the final state and the list
of the pairs' resulting IDs. -/
def runSaves (s : DexState) : List TokenPair → DexState × List Nat
  | [] => (s, [])
  | tp :: rest =>
    let (s1, tp1) := SaveTokenPair s tp
    let (s2, ids) := runSaves s1 rest
    (s2, tp1.id :: ids)

/-! ## Lemmas about the coin arithmetic -/

theorem removeZero_ne_zero (cs : List Coin) : ∀ c ∈ removeZero cs, c.amount ≠ 0 := by
  intro c hc
  simp only [removeZero, List.mem_filter, decide_eq_true_eq] at hc
  exact hc.2

theorem removeZero_subset (cs : List Coin) : ∀ c ∈ removeZero cs, c ∈ cs := by
  intro c hc
  exact (List.mem_filter.mp hc).1

/-- `safeAdd` never emits a zero amount: zero summands and zero sums are
dropped at every branch. -/
theorem safeAdd_ne_zero (xs ys : List Coin) : ∀ c ∈ safeAdd xs ys, c.amount ≠ 0 := by
  induction xs, ys using safeAdd.induct with
  | case1 ys => intro c hc; rw [safeAdd] at hc; exact removeZero_ne_zero _ c hc
  | case2 x xs => intro c hc; rw [safeAdd] at hc; exact removeZero_ne_zero _ c hc
  | case3 x xs y ys h1 h2 ih =>
    intro c hc; rw [safeAdd, if_pos h1, if_pos h2] at hc; exact ih c hc
  | case4 x xs y ys h1 h2 ih =>
    intro c hc; rw [safeAdd, if_pos h1, if_neg h2] at hc
    rcases List.mem_cons.mp hc with rfl | hc
    · exact h2
    · exact ih c hc
  | case5 x xs y ys h1 h2 h3 ih =>
    intro c hc; rw [safeAdd, if_neg h1, if_pos h2, if_pos h3] at hc; exact ih c hc
  | case6 x xs y ys h1 h2 h3 ih =>
    intro c hc; rw [safeAdd, if_neg h1, if_pos h2, if_neg h3] at hc
    rcases List.mem_cons.mp hc with rfl | hc
    · exact h3
    · exact ih c hc
  | case7 x xs y ys h1 h2 h3 ih =>
    intro c hc; rw [safeAdd, if_neg h1, if_neg h2, if_pos h3] at hc; exact ih c hc
  | case8 x xs y ys h1 h2 h3 ih =>
    intro c hc; rw [safeAdd, if_neg h1, if_neg h2, if_neg h3] at hc
    rcases List.mem_cons.mp hc with rfl | hc
    · exact h3
    · exact ih c hc

/-- Merging two all-positive coin lists yields an all-positive list. -/
theorem safeAdd_pos (xs ys : List Coin) (hx : ∀ c ∈ xs, 0 < c.amount)
    (hy : ∀ c ∈ ys, 0 < c.amount) : ∀ c ∈ safeAdd xs ys, 0 < c.amount := by
  induction xs, ys using safeAdd.induct with
  | case1 ys =>
    intro c hc; rw [safeAdd] at hc; exact hy c (removeZero_subset _ c hc)
  | case2 x xs =>
    intro c hc; rw [safeAdd] at hc; exact hx c (removeZero_subset _ c hc)
  | case3 x xs y ys h1 h2 ih =>
    intro c hc; rw [safeAdd, if_pos h1, if_pos h2] at hc
    exact ih (fun c hc => hx c (List.mem_cons_of_mem x hc)) hy c hc
  | case4 x xs y ys h1 h2 ih =>
    intro c hc; rw [safeAdd, if_pos h1, if_neg h2] at hc
    rcases List.mem_cons.mp hc with rfl | hc
    · exact hx c (List.mem_cons_self _ _)
    · exact ih (fun c hc => hx c (List.mem_cons_of_mem x hc)) hy c hc
  | case5 x xs y ys h1 h2 h3 ih =>
    intro c hc; rw [safeAdd, if_neg h1, if_pos h2, if_pos h3] at hc
    exact ih hx (fun c hc => hy c (List.mem_cons_of_mem y hc)) c hc
  | case6 x xs y ys h1 h2 h3 ih =>
    intro c hc; rw [safeAdd, if_neg h1, if_pos h2, if_neg h3] at hc
    rcases List.mem_cons.mp hc with rfl | hc
    · exact hy c (List.mem_cons_self _ _)
    · exact ih hx (fun c hc => hy c (List.mem_cons_of_mem y hc)) c hc
  | case7 x xs y ys h1 h2 h3 ih =>
    intro c hc; rw [safeAdd, if_neg h1, if_neg h2, if_pos h3] at hc
    exact ih (fun c hc => hx c (List.mem_cons_of_mem x hc))
      (fun c hc => hy c (List.mem_cons_of_mem y hc)) c hc
  | case8 x xs y ys h1 h2 h3 ih =>
    intro c hc; rw [safeAdd, if_neg h1, if_neg h2, if_neg h3] at hc
    rcases List.mem_cons.mp hc with rfl | hc
    · have hxp := hx x (List.mem_cons_self _ _)
      have hyp := hy y (List.mem_cons_self _ _)
      simpa using by omega
    · exact ih (fun c hc => hx c (List.mem_cons_of_mem x hc))
        (fun c hc => hy c (List.mem_cons_of_mem y hc)) c hc

theorem mem_sortCoins (cs : List Coin) : ∀ c, c ∈ sortCoins cs ↔ c ∈ cs := by
  intro c
  exact List.mem_insertionSort coinLE

theorem sorted_sortCoins (cs : List Coin) : List.Sorted coinLE (sortCoins cs) :=
  List.sorted_insertionSort coinLE cs

/-- The two failure branches of `updateLockCoins` in subtraction mode return
before any store write: the state comes back unchanged with the overdraft
error. -/
theorem updateLockCoins_sub_none (s : TokenState) (addr : Nat) (coins : List Coin)
    (h : lockGet s.locks addr = none) :
    updateLockCoins s addr coins false = (s, some Err.Overdraft) := by
  simp [updateLockCoins, h]

theorem updateLockCoins_sub_negative (s : TokenState) (addr : Nat) (coins oldCoins : List Coin)
    (hold : lockGet s.locks addr = some oldCoins)
    (hneg : (safeSub oldCoins coins).2 = true) :
    updateLockCoins s addr coins false = (s, some Err.Overdraft) := by
  unfold updateLockCoins
  rw [hold]
  simp [hneg]

/-- The successful subtraction step of `updateLockCoins`, characterized. -/
theorem updateLockCoins_sub_ok (s : TokenState) (addr : Nat) (coins oldCoins : List Coin)
    (hold : lockGet s.locks addr = some oldCoins)
    (hflag : (safeSub oldCoins coins).2 = false) :
    updateLockCoins s addr coins false =
      (if (sortCoins (safeSub oldCoins coins).1).length > 0
       then (⟨lockSet s.locks addr (sortCoins (safeSub oldCoins coins).1),
              s.moduleCoins, s.accounts⟩, none)
       else (⟨lockDel s.locks addr, s.moduleCoins, s.accounts⟩, none)) := by
  unfold updateLockCoins
  rw [hold]
  simp [hflag]

/-- The addition step of `updateLockCoins` on a fresh address. -/
theorem updateLockCoins_add_none (s : TokenState) (addr : Nat) (coins : List Coin)
    (h : lockGet s.locks addr = none) :
    updateLockCoins s addr coins true =
      (if (sortCoins coins).length > 0
       then (⟨lockSet s.locks addr (sortCoins coins), s.moduleCoins, s.accounts⟩, none)
       else (⟨lockDel s.locks addr, s.moduleCoins, s.accounts⟩, none)) := by
  unfold updateLockCoins
  rw [h]

/-- The addition step of `updateLockCoins` on an existing record. -/
theorem updateLockCoins_add_some (s : TokenState) (addr : Nat) (coins oldCoins : List Coin)
    (hold : lockGet s.locks addr = some oldCoins) :
    updateLockCoins s addr coins true =
      (if (sortCoins (safeAdd oldCoins coins)).length > 0
       then (⟨lockSet s.locks addr (sortCoins (safeAdd oldCoins coins)),
              s.moduleCoins, s.accounts⟩, none)
       else (⟨lockDel s.locks addr, s.moduleCoins, s.accounts⟩, none)) := by
  unfold updateLockCoins
  rw [hold]

/-- A failing subtraction step of `updateLockCoins` always hands back the
unchanged state with the overdraft error. -/
theorem updateLockCoins_sub_err (s : TokenState) (addr : Nat) (coins : List Coin)
    (s1 : TokenState) (e : Err)
    (h : updateLockCoins s addr coins false = (s1, some e)) :
    s1 = s ∧ e = Err.Overdraft := by
  cases hg : lockGet s.locks addr with
  | none =>
    rw [updateLockCoins_sub_none s addr coins hg] at h
    injection h with h1 h2
    injection h2 with h2
    exact ⟨h1.symm, h2.symm⟩
  | some oldCoins =>
    cases hflag : (safeSub oldCoins coins).2 with
    | true =>
      rw [updateLockCoins_sub_negative s addr coins oldCoins hg hflag] at h
      injection h with h1 h2
      injection h2 with h2
      exact ⟨h1.symm, h2.symm⟩
    | false =>
      rw [updateLockCoins_sub_ok s addr coins oldCoins hg hflag] at h
      split at h <;> simp at h

/-! ## C3 -/

/-- C3: an `Unlock` with quantity tracking whose coins exceed the locked
amount (the stored `SafeSub` would go negative), including the case of no
locked record at all, returns the overdraft error with the entire state —
locked ledger, custody, and account balances — unchanged: the failing check
precedes every mutation. -/
theorem unlock_overdraft_leaves_state_unchanged (s : TokenState) (addr : Nat)
    (coins : List Coin)
    (h : lockGet s.locks addr = none ∨
      ∃ oldCoins, lockGet s.locks addr = some oldCoins ∧ (safeSub oldCoins coins).2 = true) :
    UnlockCoins s addr coins LockCoinsTypeQuantity = (s, some Err.Overdraft) := by
  have hstep : updateLockCoins s addr coins false = (s, some Err.Overdraft) := by
    rcases h with h | ⟨oldCoins, hold, hneg⟩
    · exact updateLockCoins_sub_none s addr coins h
    · exact updateLockCoins_sub_negative s addr coins oldCoins hold hneg
  simp [UnlockCoins, hstep]

/-- Witness for C3 at a concrete state: address 1 has 5 okt locked and tries
to unlock 10 okt. -/
theorem unlock_overdraft_leaves_state_unchanged_witness :
    UnlockCoins ⟨[(1, [⟨"okt", 5⟩])], [⟨"okt", 5⟩], []⟩ 1 [⟨"okt", 10⟩]
      LockCoinsTypeQuantity
      = (⟨[(1, [⟨"okt", 5⟩])], [⟨"okt", 5⟩], []⟩, some Err.Overdraft) :=
  unlock_overdraft_leaves_state_unchanged _ 1 _
    (Or.inr ⟨[⟨"okt", 5⟩], by simp [lockGet, List.find?],
      by simp [safeSub, safeAdd, negCoins, removeZero]⟩)

/-! ## C7 -/

/-- C7: in `BalanceAccount` the debit of `outputCoins` from the locked set
runs before the credit of `inputCoins`; a debit failure aborts with the
original state and no fund movement, and on debit success the credit transfer
is applied to the debited state. -/
theorem settle_debit_before_credit (s : TokenState) (addr : Nat)
    (outputCoins inputCoins : List Coin) (s1 : TokenState) (r : Option Err)
    (hdeb : updateLockCoins s addr outputCoins false = (s1, r))
    (hout : coinsIsZero outputCoins = false) :
    (∀ e, r = some e → BalanceAccount s addr outputCoins inputCoins = (s, some e)) ∧
    (r = none → coinsIsZero inputCoins = false →
      BalanceAccount s addr outputCoins inputCoins =
        match sendToAccount s1.moduleCoins s1.accounts addr inputCoins with
        | none => (s1, some Err.InsufficientFunds)
        | some (m, b) => (⟨s1.locks, m, b⟩, none)) := by
  constructor
  · intro e he
    subst he
    obtain ⟨rfl, rfl⟩ := updateLockCoins_sub_err s addr outputCoins s1 e hdeb
    rw [BalanceAccount.eq_def]
    rw [hout]
    simp [hdeb]
  · intro hr hinp
    subst hr
    rw [BalanceAccount.eq_def]
    rw [hout, hinp]
    simp [hdeb]

/-- Witness for C7: debiting 10 okt from a set holding only 5 fails and
leaves the state unchanged. -/
theorem settle_debit_before_credit_witness :
    BalanceAccount ⟨[(1, [⟨"okt", 5⟩])], [⟨"okt", 5⟩], []⟩ 1 [⟨"okt", 10⟩] [⟨"btc", 1⟩]
      = (⟨[(1, [⟨"okt", 5⟩])], [⟨"okt", 5⟩], []⟩, some Err.Overdraft) :=
  (settle_debit_before_credit ⟨[(1, [⟨"okt", 5⟩])], [⟨"okt", 5⟩], []⟩ 1
      [⟨"okt", 10⟩] [⟨"btc", 1⟩] ⟨[(1, [⟨"okt", 5⟩])], [⟨"okt", 5⟩], []⟩
      (some Err.Overdraft)
      (updateLockCoins_sub_negative _ 1 _ [⟨"okt", 5⟩] (by simp [lockGet, List.find?])
        (by simp [safeSub, safeAdd, negCoins, removeZero]))
      (by simp [coinsIsZero])).1 Err.Overdraft rfl

/-! ## C10 -/

/-- C10: if the custody-to-account transfer inside `CompleteWithdraw` fails,
the call returns an error with the state unchanged — the pending withdraw
record is still in the store (deletion happens only after a successful
transfer), so completion can be retried later. -/
theorem completeWithdraw_transfer_failure_keeps_record (s : DexState) (addr : Nat)
    (wi : WithdrawInfo) (hw : wGet s.withdraws addr = some wi)
    (hfail : sendToAccount s.moduleCoins s.accounts wi.owner (toCoins wi.deposits) = none) :
    CompleteWithdraw s addr = (s, some Err.InsufficientFunds) ∧
    wGet (CompleteWithdraw s addr).1.withdraws addr = some wi := by
  have heq : CompleteWithdraw s addr = (s, some Err.InsufficientFunds) := by
    unfold CompleteWithdraw
    simp only [hw, hfail]
  exact ⟨heq, by rw [heq]; exact hw⟩

/-- Witness for C10: empty custody cannot pay out a pending 100 okt record. -/
theorem completeWithdraw_transfer_failure_keeps_record_witness :
    CompleteWithdraw ⟨[], 0, [], [(1, ⟨1, ⟨"okt", 100⟩, 5⟩)], [(5, 1)], [], [], 5⟩ 1
      = (⟨[], 0, [], [(1, ⟨1, ⟨"okt", 100⟩, 5⟩)], [(5, 1)], [], [], 5⟩,
         some Err.InsufficientFunds) :=
  (completeWithdraw_transfer_failure_keeps_record _ 1 ⟨1, ⟨"okt", 100⟩, 5⟩
    (by simp [wGet, List.find?])
    (by simp [sendToAccount, safeSub, safeAdd, negCoins, removeZero, toCoins])).1

/-! ## C5 -/

theorem getPair_setPair (ps : List (String × TokenPair)) (k : String) (tp : TokenPair) :
    getPair (setPair ps k tp) k = some tp := by
  simp [getPair, setPair, List.find?]

/-- C5: `SaveTokenPair` followed by `GetTokenPair` on the saved pair's product
key returns exactly the record as saved (with its assigned ID), and re-saving
a pair whose ID is already non-zero leaves the pair — in particular its ID —
untouched. -/
theorem save_then_get_roundtrip (s : DexState) (tp : TokenPair)
    (s1 : DexState) (tp1 : TokenPair) (h : SaveTokenPair s tp = (s1, tp1)) :
    GetTokenPair s1 (pairKey tp1) = some tp1 ∧ (tp.id ≠ 0 → tp1 = tp) := by
  unfold SaveTokenPair at h
  injection h with hs ht
  subst hs
  constructor
  · rw [GetTokenPair]
    dsimp only
    rw [← ht]
    exact getPair_setPair _ _ _
  · intro hid
    rw [← ht, if_neg hid]

/-- Witness for C5: saving a pair with preset ID 9 round-trips and keeps the
ID. -/
theorem save_then_get_roundtrip_witness :
    GetTokenPair (SaveTokenPair ⟨[], 0, [], [], [], [], [], 5⟩
        ⟨9, "btc", "usdt", 7, ⟨"okt", 0⟩, false⟩).1 "btc_usdt"
      = some ⟨9, "btc", "usdt", 7, ⟨"okt", 0⟩, false⟩ := by
  have h := save_then_get_roundtrip ⟨[], 0, [], [], [], [], [], 5⟩
    ⟨9, "btc", "usdt", 7, ⟨"okt", 0⟩, false⟩
    (SaveTokenPair ⟨[], 0, [], [], [], [], [], 5⟩ ⟨9, "btc", "usdt", 7, ⟨"okt", 0⟩, false⟩).1
    (SaveTokenPair ⟨[], 0, [], [], [], [], [], 5⟩ ⟨9, "btc", "usdt", 7, ⟨"okt", 0⟩, false⟩).2
    rfl
  simpa [SaveTokenPair, pairKey] using h.1

/-! ## C8 -/

/-- All stored amounts are strictly positive. -/
def coinsPos (cs : List Coin) : Prop := ∀ c ∈ cs, 0 < c.amount

/-- The locked-ledger well-formedness invariant: every stored entry is
all-positive, sorted by denom, and non-empty (an empty set is deleted, not
stored). -/
def lockInv (l : List (Nat × List Coin)) : Prop :=
  ∀ e ∈ l, coinsPos e.2 ∧ List.Sorted coinLE e.2 ∧ e.2 ≠ []

theorem lockGet_mem (l : List (Nat × List Coin)) (addr : Nat) (cs : List Coin)
    (h : lockGet l addr = some cs) : ∃ e ∈ l, e.2 = cs := by
  unfold lockGet at h
  cases hf : l.find? (fun e => e.1 = addr) with
  | none => rw [hf] at h; cases h
  | some e =>
    rw [hf] at h
    exact ⟨e, List.mem_of_find?_eq_some hf, by injection h⟩

theorem lockInv_set (l : List (Nat × List Coin)) (addr : Nat) (cs : List Coin)
    (hinv : lockInv l) (hpos : coinsPos cs) (hsorted : List.Sorted coinLE cs)
    (hne : cs ≠ []) : lockInv (lockSet l addr cs) := by
  intro e he
  rcases List.mem_cons.mp he with rfl | he
  · exact ⟨hpos, hsorted, hne⟩
  · exact hinv e (List.mem_of_mem_filter he)

theorem lockInv_del (l : List (Nat × List Coin)) (addr : Nat) (hinv : lockInv l) :
    lockInv (lockDel l addr) := fun e he => hinv e (List.mem_of_mem_filter he)

/-- A coin subtraction that passed the negativity check yields all-positive
coins: nonnegative by the check, nonzero because `safeAdd` drops zeros. -/
theorem safeSub_pos (oldCoins coins : List Coin)
    (hflag : (safeSub oldCoins coins).2 = false) :
    coinsPos (safeSub oldCoins coins).1 := by
  intro c hc
  have hnz : c.amount ≠ 0 := safeAdd_ne_zero oldCoins (negCoins coins) c hc
  have hnonneg : ¬ c.amount < 0 := by
    have := List.any_eq_false.mp hflag c hc
    simpa using this
  omega

/-- `updateLockCoins` preserves the locked-ledger invariant (positivity of the
added coins is required in addition mode: the fresh-address branch stores the
argument as given). -/
theorem updateLockCoins_inv (s : TokenState) (addr : Nat) (coins : List Coin)
    (isAdd : Bool) (hinv : lockInv s.locks)
    (hpos : isAdd = true → coinsPos coins) :
    lockInv (updateLockCoins s addr coins isAdd).1.locks := by
  cases isAdd with
  | false =>
    cases hg : lockGet s.locks addr with
    | none => rw [updateLockCoins_sub_none s addr coins hg]; exact hinv
    | some oldCoins =>
      cases hflag : (safeSub oldCoins coins).2 with
      | true => rw [updateLockCoins_sub_negative s addr coins oldCoins hg hflag]; exact hinv
      | false =>
        rw [updateLockCoins_sub_ok s addr coins oldCoins hg hflag]
        by_cases hlen : (sortCoins (safeSub oldCoins coins).1).length > 0
        · rw [if_pos hlen]
          exact lockInv_set _ addr _ hinv
            (fun c hc => safeSub_pos oldCoins coins hflag c ((mem_sortCoins _ c).mp hc))
            (sorted_sortCoins _)
            (List.ne_nil_of_length_pos hlen)
        · rw [if_neg hlen]
          exact lockInv_del _ addr hinv
  | true =>
    cases hg : lockGet s.locks addr with
    | none =>
      rw [updateLockCoins_add_none s addr coins hg]
      by_cases hlen : (sortCoins coins).length > 0
      · rw [if_pos hlen]
        exact lockInv_set _ addr _ hinv
          (fun c hc => hpos rfl c ((mem_sortCoins _ c).mp hc))
          (sorted_sortCoins _)
          (List.ne_nil_of_length_pos hlen)
      · rw [if_neg hlen]
        exact lockInv_del _ addr hinv
    | some oldCoins =>
      rw [updateLockCoins_add_some s addr coins oldCoins hg]
      have holdPos : coinsPos oldCoins := by
        obtain ⟨e, hmem, he⟩ := lockGet_mem s.locks addr oldCoins hg
        exact he ▸ (hinv e hmem).1
      by_cases hlen : (sortCoins (safeAdd oldCoins coins)).length > 0
      · rw [if_pos hlen]
        exact lockInv_set _ addr _ hinv
          (fun c hc => safeAdd_pos oldCoins coins holdPos (hpos rfl) c
            ((mem_sortCoins _ c).mp hc))
          (sorted_sortCoins _)
          (List.ne_nil_of_length_pos hlen)
      · rw [if_neg hlen]
        exact lockInv_del _ addr hinv

theorem LockCoins_inv (s : TokenState) (addr : Nat) (coins : List Coin)
    (lockCoinsType : Int) (hinv : lockInv s.locks) (hpos : coinsPos coins) :
    lockInv (LockCoins s addr coins lockCoinsType).1.locks := by
  unfold LockCoins
  cases hsend : sendFromAccount s.moduleCoins s.accounts addr coins with
  | none => simp only [hsend]; exact hinv
  | some mb =>
    obtain ⟨m, b⟩ := mb
    simp only [hsend]
    by_cases ht : lockCoinsType = LockCoinsTypeQuantity
    · rw [if_pos ht]
      exact updateLockCoins_inv ⟨s.locks, m, b⟩ addr coins true hinv (fun _ => hpos)
    · rw [if_neg ht]
      exact hinv

theorem UnlockCoins_inv (s : TokenState) (addr : Nat) (coins : List Coin)
    (lockCoinsType : Int) (hinv : lockInv s.locks) :
    lockInv (UnlockCoins s addr coins lockCoinsType).1.locks := by
  have hstep := updateLockCoins_inv s addr coins false hinv (by simp)
  by_cases ht : lockCoinsType = LockCoinsTypeQuantity
  · rcases hres : updateLockCoins s addr coins false with ⟨s1, r⟩
    rw [hres] at hstep
    cases r with
    | some e => simp only [UnlockCoins, ht, if_true, eq_self_iff_true, hres]; exact hstep
    | none =>
      cases hsend : sendToAccount s1.moduleCoins s1.accounts addr coins with
      | none =>
        simp only [UnlockCoins, ht, if_true, eq_self_iff_true, hres, hsend]
        exact hstep
      | some mb =>
        obtain ⟨m, b⟩ := mb
        simp only [UnlockCoins, ht, if_true, eq_self_iff_true, hres, hsend]
        exact hstep
  · cases hsend : sendToAccount s.moduleCoins s.accounts addr coins with
    | none => simp only [UnlockCoins, if_neg ht, hsend]; exact hinv
    | some mb =>
      obtain ⟨m, b⟩ := mb
      simp only [UnlockCoins, if_neg ht, hsend]
      exact hinv

theorem BalanceAccount_inv (s : TokenState) (addr : Nat)
    (outputCoins inputCoins : List Coin) (hinv : lockInv s.locks) :
    lockInv (BalanceAccount s addr outputCoins inputCoins).1.locks := by
  have hstep : ∀ s1 r,
      (if coinsIsZero outputCoins then ((s, none) : TokenState × Option Err)
       else updateLockCoins s addr outputCoins false) = (s1, r) →
      lockInv s1.locks := by
    intro s1 r h
    by_cases hz : coinsIsZero outputCoins
    · rw [if_pos hz] at h
      injection h with h1 _
      exact h1 ▸ hinv
    · rw [if_neg hz] at h
      have := updateLockCoins_inv s addr outputCoins false hinv (by simp)
      rw [h] at this
      exact this
  rcases hres : (if coinsIsZero outputCoins then ((s, none) : TokenState × Option Err)
      else updateLockCoins s addr outputCoins false) with ⟨s1, r⟩
  have hs1 := hstep s1 r hres
  cases r with
  | some e => simp only [BalanceAccount, hres]; exact hs1
  | none =>
    by_cases hz : coinsIsZero inputCoins
    · simp only [BalanceAccount, hres, hz, if_true]; exact hs1
    · cases hsend : sendToAccount s1.moduleCoins s1.accounts addr inputCoins with
      | none => simp only [BalanceAccount, hres, if_neg hz, hsend]; exact hs1
      | some mb =>
        obtain ⟨m, b⟩ := mb
        simp only [BalanceAccount, hres, if_neg hz, hsend]
        exact hs1

/-- C8: every `Lock`, `Unlock`, and `Settle` (`BalanceAccount`) call preserves
the locked-ledger invariant — all stored amounts strictly positive, each
stored set sorted by denom, and the record deleted rather than stored when
the set becomes empty (hence no amount ever goes negative in the store). -/
theorem lock_unlock_settle_preserve_invariant (s : TokenState) (addr : Nat)
    (coins ucoins outputCoins inputCoins : List Coin) (lockCoinsType : Int)
    (hinv : lockInv s.locks) (hpos : coinsPos coins) :
    lockInv (LockCoins s addr coins lockCoinsType).1.locks ∧
    lockInv (UnlockCoins s addr ucoins lockCoinsType).1.locks ∧
    lockInv (BalanceAccount s addr outputCoins inputCoins).1.locks :=
  ⟨LockCoins_inv s addr coins lockCoinsType hinv hpos,
   UnlockCoins_inv s addr ucoins lockCoinsType hinv,
   BalanceAccount_inv s addr outputCoins inputCoins hinv⟩

/-- Witness for C8 at a concrete state and concrete coin arguments. -/
theorem lock_unlock_settle_preserve_invariant_witness :
    lockInv (LockCoins ⟨[(1, [⟨"okt", 5⟩])], [⟨"okt", 5⟩], [(1, [⟨"btc", 9⟩])]⟩ 1
      [⟨"btc", 2⟩] LockCoinsTypeQuantity).1.locks ∧
    lockInv (UnlockCoins ⟨[(1, [⟨"okt", 5⟩])], [⟨"okt", 5⟩], [(1, [⟨"btc", 9⟩])]⟩ 1
      [⟨"okt", 1⟩] LockCoinsTypeQuantity).1.locks ∧
    lockInv (BalanceAccount ⟨[(1, [⟨"okt", 5⟩])], [⟨"okt", 5⟩], [(1, [⟨"btc", 9⟩])]⟩ 1
      [⟨"okt", 1⟩] [⟨"btc", 1⟩]).1.locks :=
  lock_unlock_settle_preserve_invariant _ 1 [⟨"btc", 2⟩] [⟨"okt", 1⟩] [⟨"okt", 1⟩]
    [⟨"btc", 1⟩] LockCoinsTypeQuantity
    (by unfold lockInv coinsPos; decide) (by unfold coinsPos; decide)

/-! ## C1 -/

theorem wGet_wDel (ws : List (Nat × WithdrawInfo)) (addr : Nat) :
    wGet (wDel ws addr) addr = none := by
  have hfind : (wDel ws addr).find? (fun e => e.1 = addr) = none := by
    rw [List.find?_eq_none]
    intro e he
    have h2 := (List.mem_filter.mp he).2
    simpa using h2
  simp [wGet, hfind]

/-- C1 fails as stated: at this state `CompleteWithdraw` succeeds, transfers
the funds, and deletes the primary record, but the time-index entry `(5, 1)`
of the completed record survives in the store, while the claim asserts that
`Complete` deletes it. -/
theorem completeWithdraw_keeps_time_index_cex :
    (CompleteWithdraw ⟨[], 0, [], [(1, ⟨1, ⟨"okt", 100⟩, 5⟩)], [(5, 1)],
        [⟨"okt", 100⟩], [], 5⟩ 1).2 = none ∧
    wGet (CompleteWithdraw ⟨[], 0, [], [(1, ⟨1, ⟨"okt", 100⟩, 5⟩)], [(5, 1)],
        [⟨"okt", 100⟩], [], 5⟩ 1).1.withdraws 1 = none ∧
    (5, 1) ∈ (CompleteWithdraw ⟨[], 0, [], [(1, ⟨1, ⟨"okt", 100⟩, 5⟩)], [(5, 1)],
        [⟨"okt", 100⟩], [], 5⟩ 1).1.timeIdx := by
  refine ⟨?_, ?_, ?_⟩ <;>
    simp [CompleteWithdraw, wGet, wDel, sendToAccount, safeSub, safeAdd, negCoins,
      removeZero, toCoins, bankAdd, bankGet, bankSet, List.find?, List.filter]

/-- C1 (amended): `CompleteWithdraw` fails `NotFound` when there is no pending
record; with a pending record and sufficient custody it transfers the full
pending amount from custody to the record's owner and deletes the primary
withdraw record — but leaves the time-index entry in place (its removal is the
calling block driver's responsibility) — after which a second call for the
same owner fails `NotFound`. -/
theorem completeWithdraw_spec (s : DexState) (addr : Nat) :
    (wGet s.withdraws addr = none → CompleteWithdraw s addr = (s, some Err.NotFound)) ∧
    (∀ wi m b, wGet s.withdraws addr = some wi →
      sendToAccount s.moduleCoins s.accounts wi.owner (toCoins wi.deposits) = some (m, b) →
      CompleteWithdraw s addr =
        (⟨s.pairs, s.counter, s.ownerIdx, wDel s.withdraws addr, s.timeIdx, m, b,
          s.withdrawPeriod⟩, none) ∧
      CompleteWithdraw (⟨s.pairs, s.counter, s.ownerIdx, wDel s.withdraws addr,
          s.timeIdx, m, b, s.withdrawPeriod⟩ : DexState) addr
        = (⟨s.pairs, s.counter, s.ownerIdx, wDel s.withdraws addr, s.timeIdx, m, b,
          s.withdrawPeriod⟩, some Err.NotFound)) := by
  constructor
  · intro h
    unfold CompleteWithdraw
    simp only [h]
  · intro wi m b hw hsend
    constructor
    · unfold CompleteWithdraw
      simp only [hw, hsend]
    · unfold CompleteWithdraw
      simp only [wGet_wDel]

/-- Witness for C1 (amended): owner 1 completes a pending 100 okt withdrawal;
the record goes away, the funds arrive, the `(5, 1)` time entry stays. -/
theorem completeWithdraw_spec_witness :
    CompleteWithdraw ⟨[("p", ⟨1, "b", "q", 7, ⟨"okt", 0⟩, false⟩)], 1, [],
        [(1, ⟨1, ⟨"okt", 100⟩, 5⟩)], [(5, 1)], [⟨"okt", 100⟩], [], 5⟩ 1
      = (⟨[("p", ⟨1, "b", "q", 7, ⟨"okt", 0⟩, false⟩)], 1, [], [], [(5, 1)], [],
          [(1, [⟨"okt", 100⟩])], 5⟩, none) := by
  have h := (completeWithdraw_spec ⟨[("p", ⟨1, "b", "q", 7, ⟨"okt", 0⟩, false⟩)], 1, [],
      [(1, ⟨1, ⟨"okt", 100⟩, 5⟩)], [(5, 1)], [⟨"okt", 100⟩], [], 5⟩ 1).2
    ⟨1, ⟨"okt", 100⟩, 5⟩ [] [(1, [⟨"okt", 100⟩])]
    (by simp [wGet, List.find?])
    (by simp [sendToAccount, safeSub, safeAdd, negCoins, removeZero, toCoins,
      bankAdd, bankGet, bankSet])
  simpa [wDel, List.filter] using h.1

/-! ## C2 -/

theorem wGet_wSet (ws : List (Nat × WithdrawInfo)) (wi : WithdrawInfo) (addr : Nat)
    (h : wi.owner = addr) : wGet (wSet ws wi) addr = some wi := by
  subst h
  simp [wGet, wSet, List.find?]

theorem mem_tiSet (ti : List (Nat × Nat)) (t a : Nat) (e : Nat × Nat)
    (h : e ∈ tiSet ti t a) : e = (t, a) ∨ e ∈ ti := by
  unfold tiSet at h
  by_cases hm : (t, a) ∈ ti
  · rw [if_pos hm] at h; exact Or.inr h
  · rw [if_neg hm] at h
    rcases List.mem_cons.mp h with h | h
    · exact Or.inl h
    · exact Or.inr h

theorem mem_tiDel (ti : List (Nat × Nat)) (t a : Nat) (e : Nat × Nat)
    (h : e ∈ tiDel ti t a) : e ∈ ti ∧ e ≠ (t, a) := by
  have := List.mem_filter.mp h
  exact ⟨this.1, by simpa using this.2⟩

/-- C2 fails as stated: two `Withdraw` calls at the same block time (the second
therefore well before the first call's maturity of 5) merge correctly, but the
merged time-index entry sits exactly at the first call's original maturity, so
the inclusive range scan up to that maturity still yields the owner — the
claim asserts it yields nothing. -/
theorem withdraw_merge_same_block_cex :
    (Withdraw (Withdraw ⟨[("btc_usdt", ⟨1, "btc", "usdt", 7, ⟨"okt", 100⟩, false⟩)],
        1, [(7, "btc_usdt")], [], [], [], [], 5⟩ "btc_usdt" 7 ⟨"okt", 10⟩ 0).1
        "btc_usdt" 7 ⟨"okt", 10⟩ 0).2 = none ∧
    wGet (Withdraw (Withdraw ⟨[("btc_usdt", ⟨1, "btc", "usdt", 7, ⟨"okt", 100⟩, false⟩)],
        1, [(7, "btc_usdt")], [], [], [], [], 5⟩ "btc_usdt" 7 ⟨"okt", 10⟩ 0).1
        "btc_usdt" 7 ⟨"okt", 10⟩ 0).1.withdraws 7 = some ⟨7, ⟨"okt", 20⟩, 5⟩ ∧
    7 ∈ maturedAddrs (Withdraw (Withdraw ⟨[("btc_usdt", ⟨1, "btc", "usdt", 7,
        ⟨"okt", 100⟩, false⟩)], 1, [(7, "btc_usdt")], [], [], [], [], 5⟩
        "btc_usdt" 7 ⟨"okt", 10⟩ 0).1 "btc_usdt" 7 ⟨"okt", 10⟩ 0).1 5 := by
  refine ⟨?_, ?_, ?_⟩ <;> decide

/-- C2 (amended): a `Withdraw` for an owner with a pending record merges into
that single record — the old time-index entry is removed, the amount summed,
the completion time reset to `now + withdrawPeriod`, and a time-index entry
inserted at the new completion time.  Provided the new completion time is
strictly later than the pending one (i.e. the second call happens at a
strictly later block time than the first), the inclusive time-index range scan
up to the original maturity yields nothing for that owner; at an equal block
time the merged entry sits exactly at the original maturity and the scan
returns it. -/
theorem withdraw_merge_resets_timer (s : DexState) (product : String)
    (tp : TokenPair) (toAddr : Nat) (amount : Coin) (now : Nat) (wi : WithdrawInfo)
    (hp : getPair s.pairs product = some tp)
    (how : tp.owner = toAddr)
    (hd : amount.denom = DefaultBondDenom)
    (hlt : ¬ tp.deposits.amount < amount.amount)
    (hw : wGet s.withdraws toAddr = some wi)
    (hwo : wi.owner = toAddr)
    (honly : ∀ t, (t, toAddr) ∈ s.timeIdx → t = wi.completeTime)
    (hfresh : wi.completeTime < now + s.withdrawPeriod) :
    Withdraw s product toAddr amount now =
      (⟨setPair s.pairs product
          { tp with deposits := ⟨tp.deposits.denom, tp.deposits.amount - amount.amount⟩ },
        s.counter, s.ownerIdx,
        wSet s.withdraws ⟨wi.owner, ⟨wi.deposits.denom,
          wi.deposits.amount + amount.amount⟩, now + s.withdrawPeriod⟩,
        tiSet (tiDel s.timeIdx wi.completeTime toAddr) (now + s.withdrawPeriod) toAddr,
        s.moduleCoins, s.accounts, s.withdrawPeriod⟩, none) ∧
    wGet (Withdraw s product toAddr amount now).1.withdraws toAddr
      = some ⟨wi.owner, ⟨wi.deposits.denom, wi.deposits.amount + amount.amount⟩,
          now + s.withdrawPeriod⟩ ∧
    toAddr ∉ maturedAddrs (Withdraw s product toAddr amount now).1 wi.completeTime := by
  have heq : Withdraw s product toAddr amount now =
      (⟨setPair s.pairs product
          { tp with deposits := ⟨tp.deposits.denom, tp.deposits.amount - amount.amount⟩ },
        s.counter, s.ownerIdx,
        wSet s.withdraws ⟨wi.owner, ⟨wi.deposits.denom,
          wi.deposits.amount + amount.amount⟩, now + s.withdrawPeriod⟩,
        tiSet (tiDel s.timeIdx wi.completeTime toAddr) (now + s.withdrawPeriod) toAddr,
        s.moduleCoins, s.accounts, s.withdrawPeriod⟩, none) := by
    unfold Withdraw
    simp only [hp, how, hd, hlt, hw, ne_eq, not_true_eq_false, if_false, ite_false,
      not_false_eq_true, if_true, ite_true]
  refine ⟨heq, ?_, ?_⟩
  · rw [heq]
    exact wGet_wSet s.withdraws _ toAddr hwo
  · rw [heq]
    intro hmem
    unfold maturedAddrs at hmem
    obtain ⟨e, he, hsnd⟩ := List.mem_map.mp hmem
    have hfilter := List.mem_filter.mp he
    have hle : e.1 ≤ wi.completeTime := by simpa using hfilter.2
    rcases mem_tiSet _ _ _ e hfilter.1 with rfl | he2
    · have hle2 : now + s.withdrawPeriod ≤ wi.completeTime := hle
      omega
    · obtain ⟨hmem2, hne⟩ := mem_tiDel _ _ _ e he2
      have hmemp : (e.1, toAddr) ∈ s.timeIdx := by
        rw [← hsnd, Prod.mk.eta]
        exact hmem2
      exact hne (Prod.ext (honly e.1 hmemp) hsnd)

/-- Witness for C2 (amended): a pending 10 okt record maturing at 5 is merged
by a second withdrawal at block time 1 (period 5): amount 20, maturity 6, and
the scan up to 5 no longer sees owner 7. -/
theorem withdraw_merge_resets_timer_witness :
    wGet (Withdraw ⟨[("btc_usdt", ⟨1, "btc", "usdt", 7, ⟨"okt", 90⟩, false⟩)], 1,
        [(7, "btc_usdt")], [(7, ⟨7, ⟨"okt", 10⟩, 5⟩)], [(5, 7)], [], [], 5⟩
        "btc_usdt" 7 ⟨"okt", 10⟩ 1).1.withdraws 7 = some ⟨7, ⟨"okt", 20⟩, 6⟩ ∧
    7 ∉ maturedAddrs (Withdraw ⟨[("btc_usdt", ⟨1, "btc", "usdt", 7, ⟨"okt", 90⟩, false⟩)],
        1, [(7, "btc_usdt")], [(7, ⟨7, ⟨"okt", 10⟩, 5⟩)], [(5, 7)], [], [], 5⟩
        "btc_usdt" 7 ⟨"okt", 10⟩ 1).1 5 := by
  have h := withdraw_merge_resets_timer
    ⟨[("btc_usdt", ⟨1, "btc", "usdt", 7, ⟨"okt", 90⟩, false⟩)], 1,
      [(7, "btc_usdt")], [(7, ⟨7, ⟨"okt", 10⟩, 5⟩)], [(5, 7)], [], [], 5⟩
    "btc_usdt" ⟨1, "btc", "usdt", 7, ⟨"okt", 90⟩, false⟩ 7 ⟨"okt", 10⟩ 1
    ⟨7, ⟨"okt", 10⟩, 5⟩
    (by simp [getPair, List.find?]) rfl rfl (by decide)
    (by simp [wGet, List.find?]) rfl
    (by intro t ht; simp at ht; exact ht) (by decide)
  refine ⟨?_, h.2.2⟩
  have h21 := h.2.1
  norm_num at h21 ⊢
  exact h21

/-! ## C4 -/

/-- One fresh save: a pair arriving with ID 0 gets `counter+1` (uint64
arithmetic, no wrap under the bound) and the persisted counter becomes that
ID. -/
theorem SaveTokenPair_fresh (s : DexState) (tp : TokenPair) (hid : tp.id = 0)
    (hlt : s.counter + 1 < 2 ^ 64) :
    (SaveTokenPair s tp).2.id = s.counter + 1 ∧
    (SaveTokenPair s tp).1.counter = s.counter + 1 := by
  have h64 : (2 : Nat) ^ 64 = 18446744073709551616 := by norm_num
  have hlt2 : s.counter + 1 < 18446744073709551616 := by rw [← h64]; exact hlt
  unfold SaveTokenPair
  simp [hid]
  omega

theorem runSaves_fresh (s : DexState) (l : List TokenPair)
    (hz : ∀ tp ∈ l, tp.id = 0) (hof : s.counter + l.length < 2 ^ 64) :
    (runSaves s l).2 = List.range' (s.counter + 1) l.length ∧
    (runSaves s l).1.counter = s.counter + l.length := by
  induction l generalizing s with
  | nil => simp [runSaves]
  | cons tp rest ih =>
    have hid : tp.id = 0 := hz tp (List.mem_cons_self _ _)
    have h64 : (2 : Nat) ^ 64 = 18446744073709551616 := by norm_num
    have hofn : s.counter + rest.length + 1 ≤ 18446744073709551615 := by
      have h0 := hof
      rw [h64] at h0
      simp only [List.length_cons] at h0
      omega
    have hlt : s.counter + 1 < 2 ^ 64 := by rw [h64]; omega
    rcases hsave : SaveTokenPair s tp with ⟨s1, tp1⟩
    have hstep := SaveTokenPair_fresh s tp hid hlt
    rw [hsave] at hstep
    have hstep1 : tp1.id = s.counter + 1 := hstep.1
    have hstep2 : s1.counter = s.counter + 1 := hstep.2
    rcases hrun : runSaves s1 rest with ⟨s2, ids⟩
    have hrs : runSaves s (tp :: rest) = (s2, tp1.id :: ids) := by
      simp [runSaves, hsave, hrun]
    have ihr := ih s1 (fun p hp => hz p (List.mem_cons_of_mem tp hp))
      (by rw [hstep2, h64]; omega)
    rw [hrun] at ihr
    have ihr1 : ids = List.range' (s1.counter + 1) rest.length := ihr.1
    have ihr2 : s2.counter = s1.counter + rest.length := ihr.2
    constructor
    · rw [hrs]
      show tp1.id :: ids = List.range' (s.counter + 1) (tp :: rest).length
      rw [List.length_cons, List.range'_succ, hstep1, ihr1, hstep2]
    · rw [hrs]
      show s2.counter = s.counter + (tp :: rest).length
      rw [ihr2, hstep2, List.length_cons]
      omega

/-- C4 fails as stated: after two fresh saves the counter is 2, but saving a
pair carrying the preset ID 1 overwrites the counter down to 1 — the counter
decreased — and a fourth fresh save is then assigned ID 2, colliding with the
second pair's ID. -/
theorem saveTokenPair_counter_decreases_cex :
    (runSaves ⟨[], 0, [], [], [], [], [], 5⟩
      [⟨0, "a", "x", 1, ⟨"okt", 0⟩, false⟩, ⟨0, "b", "x", 1, ⟨"okt", 0⟩, false⟩]).1.counter
      = 2 ∧
    (runSaves ⟨[], 0, [], [], [], [], [], 5⟩
      [⟨0, "a", "x", 1, ⟨"okt", 0⟩, false⟩, ⟨0, "b", "x", 1, ⟨"okt", 0⟩, false⟩,
       ⟨1, "c", "x", 1, ⟨"okt", 0⟩, false⟩]).1.counter = 1 ∧
    (runSaves ⟨[], 0, [], [], [], [], [], 5⟩
      [⟨0, "a", "x", 1, ⟨"okt", 0⟩, false⟩, ⟨0, "b", "x", 1, ⟨"okt", 0⟩, false⟩,
       ⟨1, "c", "x", 1, ⟨"okt", 0⟩, false⟩, ⟨0, "d", "x", 1, ⟨"okt", 0⟩, false⟩]).2
      = [1, 2, 1, 2] := by
  refine ⟨?_, ?_, ?_⟩ <;> decide

/-- C4 (amended): over a sequence of `SaveTokenPair` calls in which every pair
arrives with ID 0 (the normal creation path) and the counter stays below
2^64, the persisted counter increases by exactly one per save — in particular
it never decreases — and the assigned IDs are `counter+1, counter+2, …`,
pairwise distinct (hence distinct from every ID assigned earlier in the
sequence); independently, `SaveTokenPair` never modifies an ID that is already
non-zero.  Saving a pair with a preset non-zero ID, however, unconditionally
overwrites the persisted counter with that ID and can decrease it. -/
theorem saveTokenPair_counter_monotonic (s : DexState) (l : List TokenPair)
    (hz : ∀ tp ∈ l, tp.id = 0) (hof : s.counter + l.length < 2 ^ 64) :
    (runSaves s l).2 = List.range' (s.counter + 1) l.length ∧
    (runSaves s l).1.counter = s.counter + l.length ∧
    (runSaves s l).2.Nodup ∧
    ∀ (s0 : DexState) (tp : TokenPair), tp.id ≠ 0 → ((SaveTokenPair s0 tp).2).id = tp.id := by
  obtain ⟨h1, h2⟩ := runSaves_fresh s l hz hof
  refine ⟨h1, h2, ?_, ?_⟩
  · rw [h1]
    exact List.nodup_range' _ _
  · intro s0 tp hid
    unfold SaveTokenPair
    simp [hid]

/-- Witness for C4 (amended): two fresh saves from an empty registry are
assigned IDs 1, 2 and leave the counter at 2. -/
theorem saveTokenPair_counter_monotonic_witness :
    (runSaves ⟨[], 0, [], [], [], [], [], 5⟩
      [⟨0, "a", "x", 1, ⟨"okt", 0⟩, false⟩, ⟨0, "b", "x", 1, ⟨"okt", 0⟩, false⟩]).2
      = List.range' 1 2 ∧
    (runSaves ⟨[], 0, [], [], [], [], [], 5⟩
      [⟨0, "a", "x", 1, ⟨"okt", 0⟩, false⟩, ⟨0, "b", "x", 1, ⟨"okt", 0⟩, false⟩]).1.counter
      = 2 := by
  have h := saveTokenPair_counter_monotonic ⟨[], 0, [], [], [], [], [], 5⟩
    [⟨0, "a", "x", 1, ⟨"okt", 0⟩, false⟩, ⟨0, "b", "x", 1, ⟨"okt", 0⟩, false⟩]
    (by decide) (by decide)
  exact ⟨h.1, h.2.1⟩

/-! ## C6 -/

theorem mem_idxSet (idx : List (Nat × String)) (e a : Nat × String)
    (h : a ∈ idxSet idx e) : a = e ∨ a ∈ idx := by
  unfold idxSet at h
  by_cases hm : e ∈ idx
  · rw [if_pos hm] at h; exact Or.inr h
  · rw [if_neg hm] at h
    rcases List.mem_cons.mp h with h | h
    · exact Or.inl h
    · exact Or.inr h

theorem mem_idxSet_self (idx : List (Nat × String)) (e : Nat × String) :
    e ∈ idxSet idx e := by
  unfold idxSet
  by_cases hm : e ∈ idx
  · rw [if_pos hm]; exact hm
  · rw [if_neg hm]; exact List.mem_cons_self _ _

theorem not_mem_idxDel (idx : List (Nat × String)) (e : Nat × String) :
    e ∉ idxDel idx e := by
  intro h
  have := (List.mem_filter.mp h).2
  simp at this

/-- A `Withdraw` that passes all four checks returns no error. -/
theorem Withdraw_ok (s : DexState) (product : String) (toAddr : Nat)
    (amount : Coin) (now : Nat) (tp : TokenPair)
    (hp : getPair s.pairs product = some tp) (how : tp.owner = toAddr)
    (hd : amount.denom = DefaultBondDenom)
    (hlt : ¬ tp.deposits.amount < amount.amount) :
    (Withdraw s product toAddr amount now).2 = none := by
  unfold Withdraw
  cases hwg : wGet s.withdraws toAddr <;>
    simp [hp, how, hd, hlt, hwg]

/-- C6: `TransferOwnership` requires `from` to be the pair's current owner and
fails `NotOwner` otherwise; with a positive deposit it first performs a full
`Withdraw` of the entire deposit under `from`, then persists the pair with
owner `to` and the (non-zero) configured default deposit, and swaps the
owner-index sentinel: the old owner's entry is deleted, the new owner's is
inserted. -/
theorem transferOwnership_spec (s : DexState) (product : String)
    (from_ toAddr : Nat) (now : Nat) (tp : TokenPair)
    (hp : getPair s.pairs product = some tp)
    (hdenom : tp.deposits.denom = DefaultBondDenom)
    (hpos : 0 < tp.deposits.amount) :
    (tp.owner ≠ from_ → TransferOwnership s product from_ toAddr now = (s, some Err.NotOwner)) ∧
    (tp.owner = from_ → ∃ s1 s2,
      Withdraw s product from_ tp.deposits now = (s1, none) ∧
      TransferOwnership s product from_ toAddr now = (s2, none) ∧
      s2.pairs = setPair s1.pairs product
        { tp with owner := toAddr, deposits := DefaultTokenPairDeposit } ∧
      s2.ownerIdx = idxSet (idxDel s1.ownerIdx (from_, product)) (toAddr, product) ∧
      s2.withdraws = s1.withdraws ∧ s2.timeIdx = s1.timeIdx ∧
      getPair s2.pairs product
        = some { tp with owner := toAddr, deposits := DefaultTokenPairDeposit } ∧
      0 < DefaultTokenPairDeposit.amount ∧
      (toAddr, product) ∈ s2.ownerIdx ∧
      (from_ ≠ toAddr → (from_, product) ∉ s2.ownerIdx)) := by
  constructor
  · intro hne
    unfold TransferOwnership
    simp [hp, hne]
  · intro how
    rcases hwres : Withdraw s product from_ tp.deposits now with ⟨s1, r⟩
    have hok := Withdraw_ok s product from_ tp.deposits now tp hp how hdenom (by omega)
    rw [hwres] at hok
    have hr : r = none := hok
    subst hr
    have hTO : TransferOwnership s product from_ toAddr now =
        (⟨setPair s1.pairs product
            { tp with owner := toAddr, deposits := DefaultTokenPairDeposit },
          s1.counter, idxSet (idxDel s1.ownerIdx (from_, product)) (toAddr, product),
          s1.withdraws, s1.timeIdx, s1.moduleCoins, s1.accounts, s1.withdrawPeriod⟩,
         none) := by
      unfold TransferOwnership
      simp only [hp, how, ne_eq, not_true_eq_false, if_false, ite_false,
        not_false_eq_true, if_true, ite_true, hpos, if_pos, hwres, UpdateTokenPair]
    refine ⟨s1, ⟨setPair s1.pairs product
        { tp with owner := toAddr, deposits := DefaultTokenPairDeposit },
        s1.counter, idxSet (idxDel s1.ownerIdx (from_, product)) (toAddr, product),
        s1.withdraws, s1.timeIdx, s1.moduleCoins, s1.accounts, s1.withdrawPeriod⟩,
      rfl, hTO, rfl, rfl, rfl, rfl, getPair_setPair _ _ _,
      by norm_num [DefaultTokenPairDeposit], mem_idxSet_self _ _, ?_⟩
    intro hne hmem
    rcases mem_idxSet _ _ _ hmem with h | h
    · exact hne (congrArg Prod.fst h)
    · exact not_mem_idxDel _ _ h

/-- Witness for C6 at a concrete pair with deposit 50 okt. -/
theorem transferOwnership_spec_witness :
    getPair (TransferOwnership ⟨[("btc_usdt", ⟨1, "btc", "usdt", 7, ⟨"okt", 50⟩, false⟩)],
        1, [(7, "btc_usdt")], [], [], [], [], 5⟩ "btc_usdt" 7 8 0).1.pairs "btc_usdt"
      = some ⟨1, "btc", "usdt", 8, DefaultTokenPairDeposit, false⟩ ∧
    (8, "btc_usdt") ∈ (TransferOwnership ⟨[("btc_usdt", ⟨1, "btc", "usdt", 7,
        ⟨"okt", 50⟩, false⟩)], 1, [(7, "btc_usdt")], [], [], [], [], 5⟩
        "btc_usdt" 7 8 0).1.ownerIdx ∧
    (7, "btc_usdt") ∉ (TransferOwnership ⟨[("btc_usdt", ⟨1, "btc", "usdt", 7,
        ⟨"okt", 50⟩, false⟩)], 1, [(7, "btc_usdt")], [], [], [], [], 5⟩
        "btc_usdt" 7 8 0).1.ownerIdx := by
  obtain ⟨s1, s2, hW, hTO, hpairs, hidx, hwd, hti, hget, hdep, hmem, hnot⟩ :=
    (transferOwnership_spec ⟨[("btc_usdt", ⟨1, "btc", "usdt", 7, ⟨"okt", 50⟩, false⟩)],
        1, [(7, "btc_usdt")], [], [], [], [], 5⟩ "btc_usdt" 7 8 0
        ⟨1, "btc", "usdt", 7, ⟨"okt", 50⟩, false⟩
        (by simp [getPair, List.find?]) rfl (by norm_num)).2 rfl
  rw [hTO]
  exact ⟨hget, hmem, hnot (by decide)⟩

/-! ## C9 -/

theorem filterMap_getPair_map_key (s : DexState) (products : List String)
    (hreg : ∀ p ∈ products, ∃ tp, getPair s.pairs p = some tp ∧ pairKey tp = p) :
    (products.filterMap (fun p => getPair s.pairs p)).map pairKey = products := by
  induction products with
  | nil => simp
  | cons p rest ih =>
    obtain ⟨tp, hget, hkey⟩ := hreg p (List.mem_cons_self _ _)
    rw [List.filterMap_cons_some hget, List.map_cons,
      ih (fun q hq => hreg q (List.mem_cons_of_mem p hq)), hkey]

/-- C9: over a list of registered product keys, `SortProducts` rewrites the
list into the ascending byte-wise order of the `"base_quote"` keys — the
output is a permutation of the input, sorted under the byte-wise string
order — and `GetTokenPairsOrdered` over registered keys
`eth_usdt, btc_usdt, ltc_usdt` returns them as
`btc_usdt, eth_usdt, ltc_usdt`. -/
theorem sortProducts_ordered (s : DexState) (products : List String)
    (hreg : ∀ p ∈ products, ∃ tp, getPair s.pairs p = some tp ∧ pairKey tp = p) :
    (SortProducts s products).Perm products ∧
    List.Sorted strLE (SortProducts s products) ∧
    (GetTokenPairsOrdered ⟨[("eth_usdt", ⟨1, "eth", "usdt", 7, ⟨"okt", 0⟩, false⟩),
        ("btc_usdt", ⟨2, "btc", "usdt", 7, ⟨"okt", 0⟩, false⟩),
        ("ltc_usdt", ⟨3, "ltc", "usdt", 7, ⟨"okt", 0⟩, false⟩)], 3, [], [], [], [],
        [], 5⟩).map pairKey = ["btc_usdt", "eth_usdt", "ltc_usdt"] := by
  have hmaps := filterMap_getPair_map_key s products hreg
  have hlen : (products.filterMap (fun p => getPair s.pairs p)).length = products.length := by
    simpa using congrArg List.length hmaps
  have hsp : SortProducts s products =
      (sortTokenPairs (products.filterMap (fun p => getPair s.pairs p))).map pairKey := by
    unfold SortProducts
    dsimp only
    rw [show (sortTokenPairs (products.filterMap (fun p => getPair s.pairs p))).length
        = products.length from (List.length_insertionSort pairLE _).trans hlen]
    rw [List.drop_length, List.append_nil]
  refine ⟨?_, ?_, by decide⟩
  · rw [hsp]
    have h2 := (List.perm_insertionSort pairLE
      (products.filterMap (fun p => getPair s.pairs p))).map pairKey
    rw [hmaps] at h2
    exact h2
  · rw [hsp]
    exact List.pairwise_map.mpr (List.sorted_insertionSort pairLE _)

/-- Witness for C9: three registered keys get sorted into byte order. -/
theorem sortProducts_ordered_witness :
    (SortProducts ⟨[("eth_usdt", ⟨1, "eth", "usdt", 7, ⟨"okt", 0⟩, false⟩),
        ("btc_usdt", ⟨2, "btc", "usdt", 7, ⟨"okt", 0⟩, false⟩),
        ("ltc_usdt", ⟨3, "ltc", "usdt", 7, ⟨"okt", 0⟩, false⟩)], 3, [], [], [], [],
        [], 5⟩ ["eth_usdt", "btc_usdt", "ltc_usdt"]).Perm
      ["eth_usdt", "btc_usdt", "ltc_usdt"] ∧
    List.Sorted strLE (SortProducts ⟨[("eth_usdt", ⟨1, "eth", "usdt", 7, ⟨"okt", 0⟩,
        false⟩), ("btc_usdt", ⟨2, "btc", "usdt", 7, ⟨"okt", 0⟩, false⟩),
        ("ltc_usdt", ⟨3, "ltc", "usdt", 7, ⟨"okt", 0⟩, false⟩)], 3, [], [], [], [],
        [], 5⟩ ["eth_usdt", "btc_usdt", "ltc_usdt"]) := by
  have h := sortProducts_ordered ⟨[("eth_usdt", ⟨1, "eth", "usdt", 7, ⟨"okt", 0⟩, false⟩),
      ("btc_usdt", ⟨2, "btc", "usdt", 7, ⟨"okt", 0⟩, false⟩),
      ("ltc_usdt", ⟨3, "ltc", "usdt", 7, ⟨"okt", 0⟩, false⟩)], 3, [], [], [], [], [], 5⟩
    ["eth_usdt", "btc_usdt", "ltc_usdt"]
    (by
      intro p hp
      fin_cases hp
      · exact ⟨⟨1, "eth", "usdt", 7, ⟨"okt", 0⟩, false⟩, by simp [getPair, List.find?], rfl⟩
      · exact ⟨⟨2, "btc", "usdt", 7, ⟨"okt", 0⟩, false⟩, by simp [getPair, List.find?], rfl⟩
      · exact ⟨⟨3, "ltc", "usdt", 7, ⟨"okt", 0⟩, false⟩, by simp [getPair, List.find?], rfl⟩)
  exact ⟨h.1, h.2.1⟩

end OKChain
